import Mathlib

/-!
Shallow embedding of the `scp` package of go-scp-tui: the SCP transfer engine
(`scp.go`), its protocol codec, the cancellation harness, and the progress
instrumentation. Byte streams are modelled as `List Char`; each transfer's
protocol goroutine becomes a pure function from its input stream to the bytes
or events it writes plus the error it reports on `errCh`. The remote process
waiter's outcome and the outcome of the `select` race in `wait` are explicit
parameters, so every interleaving the code admits corresponds to a choice of
parameters.
-/

namespace Scp

/-- Modelled from the spec (the codec source is not in the provided tree): a
decoded SCP control message. The status is derived from the first byte of a
line (0 → Success, 1 → Warning, 2 → protocol Failure); any other leading byte
means the line is not a standard protocol response, and `standard` is the
marker letting callers distinguish that case. -/
structure Response where
  rtype : Nat
  message : String
  standard : Bool
  deriving DecidableEq, Repr

/-- Modelled from the spec: file metadata parsed from a `C` header line. The
timestamp fields are absent until merged from a preceding `T` line. -/
structure FileInfos where
  permissions : Nat
  size : Int
  name : String
  mtime : Option Int
  atime : Option Int
  deriving DecidableEq, Repr

/-- Modelled from the spec: the two timestamps carried by a `T` line. -/
structure FileTimeInfos where
  mtime : Int
  atime : Int
  deriving DecidableEq, Repr

def isOctDigitB (c : Char) : Bool := '0' ≤ c && c ≤ '7'

def isDecDigitB (c : Char) : Bool := '0' ≤ c && c ≤ '9'

/-- Numeric value of a digit character. -/
def dval (c : Char) : Nat := c.toNat - 48

/-- The character for a digit value. -/
def digitChar (d : Nat) : Char := Char.ofNat (48 + d)

/-- Decimal rendering of a natural number, most significant digit first.
Structured on explicit fuel so that it reduces by evaluation. -/
def natDecAux : Nat → Nat → List Char
  | 0, _ => []
  | fuel + 1, n =>
    if n < 10 then [digitChar n]
    else natDecAux fuel (n / 10) ++ [digitChar (n % 10)]

def natDecChars (n : Nat) : List Char := natDecAux (n + 1) n

/-- Decimal rendering of an `Int`, as Go formats an `int64`. -/
def intDecChars (n : Int) : List Char :=
  if n < 0 then '-' :: natDecChars n.natAbs else natDecChars n.toNat

/-- Value of a decimal digit string. -/
def decValL (cs : List Char) : Nat := cs.foldl (fun a c => 10 * a + dval c) 0

/-- Value of an octal digit string. -/
def octValL (cs : List Char) : Nat := cs.foldl (fun a c => 8 * a + dval c) 0

/-- Split a stream at the first newline: the line before it and the rest after
it. `none` models the read error when the stream ends without a newline. -/
def splitLine : List Char → Option (List Char × List Char)
  | [] => none
  | c :: rest =>
    if c = '\n' then some ([], rest)
    else
      match splitLine rest with
      | none => none
      | some (msg, rest') => some (c :: msg, rest')

def ioReadErrMsg : String := "failed to read stream"

def formatErrMsg : String := "invalid format"

def copyShortErrMsg : String := "unexpected EOF"

/-- Modelled from the spec: `parseResponse` reads one status byte; `0x00` is
Success with an empty message; any other leading byte reads the remainder of
the line as the message, and bytes other than `0x01`/`0x02` flag the response
as non-standard framing. `none` models the IOError on a truncated stream. -/
def ParseResponse (s : List Char) : Option (Response × List Char) :=
  match s with
  | [] => none
  | c :: rest =>
    if c.toNat = 0 then some (⟨0, "", true⟩, rest)
    else
      match splitLine rest with
      | none => none
      | some (msg, rest') =>
        some (⟨c.toNat, String.mk msg, decide (c.toNat ≤ 2)⟩, rest')

/-- Modelled from the spec: only a protocol-flagged Failure (`0x02`) is fatal;
a Warning is non-fatal and an unrecognized line is not a Failure at all. -/
def Response.IsFailure (r : Response) : Bool := r.rtype == 2

def Response.GetMessage (r : Response) : String := r.message

/-- Modelled from the spec: the marker that the response used standard protocol
framing (status byte `0x00`/`0x01`/`0x02`), as opposed to the permissive
non-standard-line case. -/
def Response.NoStandardProtocolType (r : Response) : Bool := r.standard

/-- Embeds `checkResponse` (scp.go): parse one response; a Failure becomes an
error carrying the peer's message verbatim. Returns the unread stream. -/
def checkResponse (s : List Char) : Except String (List Char) :=
  match ParseResponse s with
  | none => .error ioReadErrMsg
  | some (r, rest) => if r.IsFailure then .error r.GetMessage else .ok rest

/-- The raw line a response was decoded from: its status byte followed by its
message text. -/
def Response.line (r : Response) : List Char := Char.ofNat r.rtype :: r.message.data

/-- Modelled from the spec: parse `C<mode-octal> <size-decimal> <name>`. Fails
when the mode is not octal, the size is not a non-negative decimal, the name
token is missing, or the name contains a path separator. -/
def parseFileInfosL (cs : List Char) : Option FileInfos :=
  match cs with
  | 'C' :: rest =>
    let mode := rest.takeWhile isOctDigitB
    if mode = [] then none
    else
      match rest.dropWhile isOctDigitB with
      | ' ' :: r2 =>
        let szs := r2.takeWhile isDecDigitB
        if szs = [] then none
        else
          match r2.dropWhile isDecDigitB with
          | ' ' :: nm =>
            if nm = [] then none
            else if '/' ∈ nm then none
            else some ⟨octValL mode, (decValL szs : Int), String.mk nm, none, none⟩
          | _ => none
      | _ => none
  | _ => none

/-- The file-info parser applied to a line, newlines stripped first. -/
def parseFileInfosLine (cs : List Char) : Option FileInfos :=
  parseFileInfosL (cs.filter (fun c => c != '\n'))

def Response.ParseFileInfos (r : Response) : Option FileInfos :=
  parseFileInfosLine r.line

/-- One decimal field of a timestamp line. -/
def decField (cs : List Char) : Option (Nat × List Char) :=
  let ds := cs.takeWhile isDecDigitB
  if ds = [] then none else some (decValL ds, cs.dropWhile isDecDigitB)

def expectSpace : List Char → Option (List Char)
  | ' ' :: rest => some rest
  | _ => none

/-- Modelled from the spec: parse `T<mtime> <unused> <atime> <unused>`, failing
on any non-integer field. -/
def parseFileTimeL (cs : List Char) : Option FileTimeInfos :=
  match cs with
  | 'T' :: rest => do
    let (mt, r1) ← decField rest
    let r2 ← expectSpace r1
    let (_, r3) ← decField r2
    let r4 ← expectSpace r3
    let (atv, r5) ← decField r4
    let r6 ← expectSpace r5
    let (_, r7) ← decField r6
    if r7 = [] then pure ⟨(mt : Int), (atv : Int)⟩ else none
  | _ => none

def Response.ParseFileTime (r : Response) : Option FileTimeInfos :=
  parseFileTimeL r.line

/-- Modelled from the spec: merge a timestamp line's values into a file info
before the body phase. -/
def FileInfos.Update (i : FileInfos) (t : FileTimeInfos) : FileInfos :=
  { i with mtime := some t.mtime, atime := some t.atime }

/-- Modelled from the spec: copy exactly `n` bytes from the stream; a stream
with fewer bytes available is an error. Returns the copied bytes and the rest
of the stream. -/
def CopyN (src : List Char) (n : Int) : Except String (List Char × List Char) :=
  if (src.length : Int) < n then .error copyShortErrMsg
  else .ok (src.take n.toNat, src.drop n.toNat)

/-- The upload header line `C<permissions> <size> <filename>\n` written by
`fmt.Fprintln(w, "C"+permissions, size, filename)` in CopyPassThru; `filename`
stands for `path.Base remotePath`. -/
def headerLine (permissions : String) (size : Int) (filename : String) : List Char :=
  'C' :: permissions.data ++ ' ' :: intDecChars size ++ ' ' :: filename.data ++ ['\n']

/-- Embeds the protocol goroutine of CopyPassThru (scp.go): write the header,
check a response, `io.Copy` the source to EOF, write the `0x00` terminator,
check a final response. The source is a pure byte list (its reads do not fail)
and the session's input sink accepts all writes; the returned pair is the bytes
written to the session's input and the error the goroutine reports. -/
def copyPassThruProto (permissions : String) (size : Int) (filename : String)
    (src stdout : List Char) : List Char × Option String :=
  let hdr := headerLine permissions size filename
  match checkResponse stdout with
  | .error e => (hdr, some e)
  | .ok s1 =>
    let w2 := hdr ++ src ++ ['\x00']
    match checkResponse s1 with
    | .error e => (w2, some e)
    | .ok _ => (w2, none)

/-- Embeds `wait` (scp.go): a `select` between the waitgroup's completion
channel and the context. `ctxFiredFirst` records which case of the select won
the race (combining the caller's context with the optional `Timeout`, since
`context.WithTimeout` folds both into the one `ctx.Done()` the select sees);
cancellation winning returns the context's error. -/
def wait (ctxFiredFirst : Bool) (ctxErr : String) : Option String :=
  if ctxFiredFirst then some ctxErr else none

/-- The first non-nil error of two, in queue order. -/
def firstErr : Option String → Option String → Option String
  | some e, _ => some e
  | none, o => o

/-- Embeds the tail of CopyPassThru: if `wait` reports cancellation its error
is returned at once; otherwise `errCh` is drained and the first error that was
sent wins. The two goroutines send into the buffered channel with no
happens-before edge between them, so the send order is a race: `waitErrFirst`
records whether the process waiter's send was queued ahead of the protocol
goroutine's. -/
def harvestError (protoErr waitErr : Option String) (waitErrFirst : Bool)
    (ctxFiredFirst : Bool) (ctxErr : String) : Option String :=
  match wait ctxFiredFirst ctxErr with
  | some e => some e
  | none =>
    if waitErrFirst then firstErr waitErr protoErr else firstErr protoErr waitErr

/-- Embeds the observable error of CopyPassThru (and of Copy, which merely
forwards to it): `waitErr` is the outcome of the `session.Wait` goroutine and
`waitErrFirst` the errCh send-order race. -/
def CopyPassThru (permissions : String) (size : Int) (filename : String)
    (src stdout : List Char) (waitErr : Option String) (waitErrFirst : Bool)
    (ctxFiredFirst : Bool) (ctxErr : String) : Option String :=
  harvestError (copyPassThruProto permissions size filename src stdout).2 waitErr
    waitErrFirst ctxFiredFirst ctxErr

/-- Embeds CopyFilePassThru (and CopyFile): `io.ReadAll` buffers the whole
source — `contents` with an optional read error — and only on success is
CopyPassThru invoked with the buffered bytes and their exact count as the
declared size. The second component is the byte trace the protocol goroutine
writes when it runs to completion (empty when buffering failed: no session is
opened and nothing is sent). -/
def CopyFilePassThru (permissions filename : String) (contents : List Char)
    (readErr : Option String) (stdout : List Char) (waitErr : Option String)
    (waitErrFirst : Bool) (ctxFiredFirst : Bool) (ctxErr : String) :
    Option String × List Char :=
  match readErr with
  | some e => (some ("failed to read all data from reader: " ++ e), [])
  | none =>
    let proto := copyPassThruProto permissions (contents.length : Int) filename
      contents stdout
    (harvestError proto.2 waitErr waitErrFirst ctxFiredFirst ctxErr, proto.1)

/-- Observable protocol outputs of a download: an ack byte written to the
session's input, or payload bytes delivered whole to the destination sink. -/
inductive Ev where
  | ack : Ev
  | sink : List Char → Ev
  deriving DecidableEq, Repr

/-- Embeds the goroutine of the plain CopyFromRemotePassThru (scp.go): ack,
read and gate the header response, parse it, ack, `CopyN` exactly
`infos.Size` bytes to the sink, ack, then `session.Wait`; every step's error
is reported, and the single goroutine's first error is what the entry point
sees. -/
def copyFromRemoteProto (stdout : List Char) (waitErr : Option String) :
    Option String × List Ev :=
  let ev0 := [Ev.ack]
  match ParseResponse stdout with
  | none => (some ioReadErrMsg, ev0)
  | some (res, s1) =>
    if res.IsFailure then (some res.GetMessage, ev0)
    else
      match res.ParseFileInfos with
      | none => (some formatErrMsg, ev0)
      | some infos =>
        let ev1 := ev0 ++ [Ev.ack]
        match CopyN s1 infos.size with
        | .error e => (some e, ev1)
        | .ok (bs, _) => (waitErr, ev1 ++ [Ev.sink bs] ++ [Ev.ack])

/-- Embeds the observable error of the plain CopyFromRemotePassThru (and of
CopyFromRemote, which forwards to it). -/
def CopyFromRemotePassThru (stdout : List Char) (waitErr : Option String)
    (ctxFiredFirst : Bool) (ctxErr : String) : Option String :=
  match wait ctxFiredFirst ctxErr with
  | some e => some e
  | none => (copyFromRemoteProto stdout waitErr).1

/-- Embeds the goroutine of CopyFromRemoteProgressPassThru (scp.go): ack, read
and gate the header response, parse it, ack, then `go pw.Start()` spawns the
body copy concurrently and the main goroutine immediately writes the next ack.
`copyBeforeAck` chooses the interleaving of the spawned copy relative to that
ack — both schedules are legal executions of the code. The copy's own error is
sent only to the progress display (`p.Send`), never to `errCh`, so the
reported error is the first main-goroutine error or else `waitErr` from
`session.Wait`. -/
def copyFromRemoteProgressProto (stdout : List Char) (waitErr : Option String)
    (copyBeforeAck : Bool) : Option String × List Ev :=
  let ev0 := [Ev.ack]
  match ParseResponse stdout with
  | none => (some ioReadErrMsg, ev0)
  | some (res, s1) =>
    if res.IsFailure then (some res.GetMessage, ev0)
    else
      match res.ParseFileInfos with
      | none => (some formatErrMsg, ev0)
      | some infos =>
        let ev1 := ev0 ++ [Ev.ack]
        let copyEvs :=
          match CopyN s1 infos.size with
          | .ok (bs, _) => [Ev.sink bs]
          | .error _ => []
        let ev2 := if copyBeforeAck then ev1 ++ copyEvs ++ [Ev.ack]
                   else ev1 ++ [Ev.ack] ++ copyEvs
        (waitErr, ev2)

/-- Embeds the observable error of CopyFromRemoteProgressPassThru: the harness
returns the context's error if cancellation fires first, else the single
goroutine's reported error. -/
def CopyFromRemoteProgressPassThru (stdout : List Char) (waitErr : Option String)
    (copyBeforeAck ctxFiredFirst : Bool) (ctxErr : String) : Option String :=
  match wait ctxFiredFirst ctxErr with
  | some e => some e
  | none => (copyFromRemoteProgressProto stdout waitErr copyBeforeAck).1

/-- Embeds the response gate of the preserve-mode download (scp.go, the
`res.IsFailure() && res.NoStandardProtocolType()` checks): the message that
aborts the transfer, if any. -/
def checkPreserveResponse (r : Response) : Option String :=
  if r.IsFailure && r.NoStandardProtocolType then some r.GetMessage else none

/-- Embeds the goroutine of CopyFromRemotePreserveProgressPassThru (scp.go):
ack, read the timestamp line through the permissive gate, parse it, ack, read
the header line through the same gate, parse it, ack, merge the timestamps
into the file info, then `go pw.Start()` spawns the body copy and the main
goroutine immediately writes the next ack (`copyBeforeAck` chooses the
interleaving, as in the plain progress variant). The third component is the
merged file info in effect for the body phase. -/
def copyFromRemotePreserveProto (stdout : List Char) (waitErr : Option String)
    (copyBeforeAck : Bool) : Option String × List Ev × Option FileInfos :=
  let ev0 := [Ev.ack]
  match ParseResponse stdout with
  | none => (some ioReadErrMsg, ev0, none)
  | some (res1, s1) =>
    match checkPreserveResponse res1 with
    | some msg => (some msg, ev0, none)
    | none =>
      match res1.ParseFileTime with
      | none => (some formatErrMsg, ev0, none)
      | some tinfo =>
        let ev1 := ev0 ++ [Ev.ack]
        match ParseResponse s1 with
        | none => (some ioReadErrMsg, ev1, none)
        | some (res2, s2) =>
          match checkPreserveResponse res2 with
          | some msg => (some msg, ev1, none)
          | none =>
            match res2.ParseFileInfos with
            | none => (some formatErrMsg, ev1, none)
            | some infos0 =>
              let ev2 := ev1 ++ [Ev.ack]
              let infos := infos0.Update tinfo
              let copyEvs :=
                match CopyN s2 infos.size with
                | .ok (bs, _) => [Ev.sink bs]
                | .error _ => []
              let ev3 := if copyBeforeAck then ev2 ++ copyEvs ++ [Ev.ack]
                         else ev2 ++ [Ev.ack] ++ copyEvs
              (waitErr, ev3, some infos)

/-- Embeds the observable error of CopyFromRemotePreserveProgressPassThru. -/
def CopyFromRemotePreserveProgressPassThru (stdout : List Char)
    (waitErr : Option String) (copyBeforeAck ctxFiredFirst : Bool)
    (ctxErr : String) : Option String :=
  match wait ctxFiredFirst ctxErr with
  | some e => some e
  | none => (copyFromRemotePreserveProto stdout waitErr copyBeforeAck).1

/-- State of `progressWriter` (scp.go): the declared total, the running
downloaded count, whether an `onProgress` callback is installed, and the
fractions passed to the callback so far (the `float64` division modelled as
exact rationals). -/
structure ProgressState where
  total : Int
  downloaded : Int
  hasCallback : Bool
  calls : List ℚ
  deriving DecidableEq, Repr

/-- Embeds `progressWriter.Write`: credit the chunk's length, then invoke the
callback with downloaded/total when the total is positive and a callback is
present. -/
def pwWrite (pw : ProgressState) (chunk : List Char) : ProgressState :=
  let d := pw.downloaded + chunk.length
  if 0 < pw.total ∧ pw.hasCallback = true then
    { pw with downloaded := d, calls := pw.calls ++ [(d : ℚ) / (pw.total : ℚ)] }
  else
    { pw with downloaded := d }

def pwInit (total : Int) (hasCallback : Bool) : ProgressState :=
  ⟨total, 0, hasCallback, []⟩

/-- The writer after a sequence of chunks has been observed. -/
def pwRun (pw : ProgressState) (chunks : List (List Char)) : ProgressState :=
  chunks.foldl pwWrite pw

/-- Running cumulative byte counts of a chunk sequence, starting from `d`. -/
def cumCountsFrom (d : Int) : List (List Char) → List Int
  | [] => []
  | c :: cs => (d + c.length) :: cumCountsFrom (d + c.length) cs

theorem takeWhile_append_stop {p : Char → Bool} {xs : List Char} {y : Char}
    (ys : List Char) (hxs : ∀ c ∈ xs, p c = true) (hy : p y = false) :
    (xs ++ y :: ys).takeWhile p = xs := by
  induction xs with
  | nil => simp [List.takeWhile_cons, hy]
  | cons a as ih =>
    have ha : p a = true := hxs a (by simp)
    simp only [List.cons_append, List.takeWhile_cons, ha, if_true]
    rw [ih fun c hc => hxs c (by simp [hc])]

theorem dropWhile_append_stop {p : Char → Bool} {xs : List Char} {y : Char}
    (ys : List Char) (hxs : ∀ c ∈ xs, p c = true) (hy : p y = false) :
    (xs ++ y :: ys).dropWhile p = y :: ys := by
  induction xs with
  | nil => simp [List.dropWhile_cons, hy]
  | cons a as ih =>
    have ha : p a = true := hxs a (by simp)
    simp only [List.cons_append, List.dropWhile_cons, ha, if_true]
    exact ih fun c hc => hxs c (by simp [hc])

theorem decValL_append_digit (xs : List Char) (c : Char) :
    decValL (xs ++ [c]) = 10 * decValL xs + dval c := by
  simp [decValL, List.foldl_append]

theorem dval_digitChar {d : Nat} (h : d < 10) : dval (digitChar d) = d := by
  interval_cases d <;> decide

theorem isDec_digitChar {d : Nat} (h : d < 10) : isDecDigitB (digitChar d) = true := by
  interval_cases d <;> decide

theorem isDec_ne_newline {c : Char} (h : isDecDigitB c = true) : (c != '\n') = true := by
  revert h
  simp only [isDecDigitB, Bool.and_eq_true, decide_eq_true_eq, bne_iff_ne]
  rintro ⟨h1, -⟩ rfl
  exact absurd h1 (by decide)

theorem isOct_ne_newline {c : Char} (h : isOctDigitB c = true) : (c != '\n') = true := by
  revert h
  simp only [isOctDigitB, Bool.and_eq_true, decide_eq_true_eq, bne_iff_ne]
  rintro ⟨h1, -⟩ rfl
  exact absurd h1 (by decide)

theorem natDecAux_spec : ∀ fuel n : Nat, n < fuel →
    decValL (natDecAux fuel n) = n ∧ natDecAux fuel n ≠ [] ∧
      ∀ c ∈ natDecAux fuel n, isDecDigitB c = true := by
  intro fuel
  induction fuel with
  | zero => intro n h; omega
  | succ f ih =>
    intro n h
    by_cases h10 : n < 10
    · refine ⟨?_, by simp [natDecAux, h10], ?_⟩
      · simp [natDecAux, h10, decValL, dval_digitChar h10]
      · simp only [natDecAux, h10, if_true, List.mem_singleton]
        rintro c rfl
        exact isDec_digitChar h10
    · have hn0 : 0 < n := by omega
      have hdiv : n / 10 < n := Nat.div_lt_self hn0 (by omega)
      obtain ⟨ih1, ih2, ih3⟩ := ih (n / 10) (by omega)
      refine ⟨?_, by simp [natDecAux, h10], ?_⟩
      · have hmod : n % 10 < 10 := Nat.mod_lt n (by omega)
        simp only [natDecAux, h10, if_false]
        rw [decValL_append_digit, ih1, dval_digitChar hmod]
        omega
      · simp only [natDecAux, h10, if_false, List.mem_append, List.mem_singleton]
        rintro c (hc | rfl)
        · exact ih3 c hc
        · exact isDec_digitChar (Nat.mod_lt n (by omega))

theorem decValL_natDecChars (n : Nat) : decValL (natDecChars n) = n :=
  (natDecAux_spec (n + 1) n (by omega)).1

theorem natDecChars_ne_nil (n : Nat) : natDecChars n ≠ [] :=
  (natDecAux_spec (n + 1) n (by omega)).2.1

theorem natDecChars_digits (n : Nat) : ∀ c ∈ natDecChars n, isDecDigitB c = true :=
  (natDecAux_spec (n + 1) n (by omega)).2.2

theorem intDecChars_natCast (n : Nat) : intDecChars (n : Int) = natDecChars n := by
  simp [intDecChars, Int.not_lt.mpr (Int.natCast_nonneg n), Int.toNat_ofNat]

theorem splitLine_append {xs : List Char} (ys : List Char) (h : '\n' ∉ xs) :
    splitLine (xs ++ '\n' :: ys) = some (xs, ys) := by
  induction xs with
  | nil => simp [splitLine]
  | cons a as ih =>
    have ha : ¬ (a = '\n') := fun e => h (by simp [e])
    simp only [List.cons_append, splitLine, ha, if_false]
    rw [show as.append ('\n' :: ys) = as ++ '\n' :: ys from rfl,
      ih fun hm => h (by simp [hm])]

/-- Shared evaluation of the upload goroutine on a stream that acknowledges
both protocol checkpoints: the full header + payload + terminator is written
and no error is reported. -/
theorem copyPassThruProto_ok (permissions filename : String) (size : Int)
    (src tail : List Char) :
    copyPassThruProto permissions size filename src ('\x00' :: '\x00' :: tail)
      = (headerLine permissions size filename ++ src ++ ['\x00'], none) := rfl

theorem pwWrite_downloaded (pw : ProgressState) (c : List Char) :
    (pwWrite pw c).downloaded = pw.downloaded + c.length := by
  by_cases h : 0 < pw.total ∧ pw.hasCallback = true <;> simp [pwWrite, h]

theorem pwWrite_total (pw : ProgressState) (c : List Char) :
    (pwWrite pw c).total = pw.total := by
  by_cases h : 0 < pw.total ∧ pw.hasCallback = true <;> simp [pwWrite, h]

theorem pwWrite_hasCallback (pw : ProgressState) (c : List Char) :
    (pwWrite pw c).hasCallback = pw.hasCallback := by
  by_cases h : 0 < pw.total ∧ pw.hasCallback = true <;> simp [pwWrite, h]

theorem pwRun_le : ∀ (cs : List (List Char)) (pw : ProgressState),
    pw.downloaded ≤ (pwRun pw cs).downloaded := by
  intro cs
  induction cs with
  | nil => intro pw; exact le_refl _
  | cons c cs ih =>
    intro pw
    calc pw.downloaded ≤ (pwWrite pw c).downloaded := by
          rw [pwWrite_downloaded]; omega
      _ ≤ (pwRun (pwWrite pw c) cs).downloaded := ih _

theorem pwRun_append (pw : ProgressState) (cs ds : List (List Char)) :
    pwRun pw (cs ++ ds) = pwRun (pwRun pw cs) ds := by
  simp [pwRun, List.foldl_append]

theorem pwRun_calls_pos : ∀ (cs : List (List Char)) (pw : ProgressState),
    0 < pw.total → pw.hasCallback = true →
    (pwRun pw cs).calls
      = pw.calls ++ (cumCountsFrom pw.downloaded cs).map
          (fun d => (d : ℚ) / (pw.total : ℚ)) := by
  intro cs
  induction cs with
  | nil => intro pw _ _; simp [pwRun, cumCountsFrom]
  | cons c cs ih =>
    intro pw ht hc
    have hcond : 0 < pw.total ∧ pw.hasCallback = true := ⟨ht, hc⟩
    have hstep : pwWrite pw c
        = { pw with
            downloaded := pw.downloaded + c.length,
            calls :=
              pw.calls ++ [((pw.downloaded + (c.length : Int) : Int) : ℚ) / (pw.total : ℚ)] } := by
      simp [pwWrite, hcond]
    have := ih (pwWrite pw c) (by rw [pwWrite_total]; exact ht)
      (by rw [pwWrite_hasCallback]; exact hc)
    rw [show pwRun pw (c :: cs) = pwRun (pwWrite pw c) cs from rfl, this, hstep,
      cumCountsFrom]
    simp

theorem pwRun_calls_nonpos : ∀ (cs : List (List Char)) (pw : ProgressState),
    pw.total ≤ 0 → (pwRun pw cs).calls = pw.calls := by
  intro cs
  induction cs with
  | nil => intro pw _; rfl
  | cons c cs ih =>
    intro pw ht
    have hcond : ¬ (0 < pw.total ∧ pw.hasCallback = true) := by
      rintro ⟨h1, -⟩; omega
    have hstep : (pwWrite pw c).calls = pw.calls := by simp [pwWrite, hcond]
    have htot : (pwWrite pw c).total ≤ 0 := by rw [pwWrite_total]; exact ht
    rw [show pwRun pw (c :: cs) = pwRun (pwWrite pw c) cs from rfl, ih _ htot, hstep]

/-- C1: the claim says every download variant writes the final ack only after
the body copy has delivered exactly `FileInfos.size` bytes to the sink. The
progress variant spawns the body copy with `go pw.Start()` and writes the ack
at once without joining it, so under the legal schedule where the spawned copy
runs after the main goroutine's ack (`copyBeforeAck = false`), the trace of a
5-byte download puts the final ack strictly before the payload delivery — the
claimed ordering is violated by the code. -/
theorem progress_final_ack_race :
    copyFromRemoteProgressProto (String.data "C0644 5 test.txt\nhello") none false
      = (none, [Ev.ack, Ev.ack, Ev.ack, Ev.sink (String.data "hello")]) := by
  decide

/-- C2 counterexample: the claim says the call's error always contains the
peer's message `m`. After the remote sends the Failure its process exits
non-zero, and both goroutines send into the buffered `errCh` with no
happens-before edge; under the legal schedule where the process waiter's
error is queued first, the call returns "Process exited with status 1", which
does not contain "no space". -/
theorem upload_header_failure_error_race_cex :
    CopyPassThru "0644" 5 "f" (String.data "hello")
        ('\x02' :: (String.data "no space" ++ '\n' :: []))
        (some "Process exited with status 1") true false "ctx"
      = some "Process exited with status 1" ∧
    ¬ (String.data "no space" <:+: String.data "Process exited with status 1") := by
  constructor
  · rfl
  · decide

/-- C2 amended: when the response after the upload header is a protocol
Failure with message `m`, the protocol goroutine aborts with exactly `m`
before the body — the bytes written to the session's input are the header
line alone, zero payload bytes and no `0x00` terminator — and the call
returns a non-nil error: the first error queued on `errCh`, which is exactly
`m` whenever the process waiter's error was not queued ahead of it, in
particular whenever `session.Wait` reports no error. -/
theorem upload_header_failure_aborts_body (permissions filename : String)
    (size : Int) (src m tail : List Char) (waitErr : Option String)
    (waitErrFirst : Bool) (ctxErr : String) (hm : '\n' ∉ m) :
    copyPassThruProto permissions size filename src ('\x02' :: (m ++ '\n' :: tail))
      = (headerLine permissions size filename, some (String.mk m)) ∧
    CopyPassThru permissions size filename src ('\x02' :: (m ++ '\n' :: tail))
        waitErr waitErrFirst false ctxErr ≠ none ∧
    (waitErrFirst = false ∨ waitErr = none →
      CopyPassThru permissions size filename src ('\x02' :: (m ++ '\n' :: tail))
          waitErr waitErrFirst false ctxErr = some (String.mk m)) := by
  have hp : ParseResponse ('\x02' :: (m ++ '\n' :: tail))
      = some (⟨2, String.mk m, true⟩, tail) := by
    rw [ParseResponse]
    rw [if_neg (show ¬(('\x02').toNat = 0) by decide), splitLine_append tail hm]
    rfl
  have hcheck : checkResponse ('\x02' :: (m ++ '\n' :: tail))
      = .error (String.mk m) := by
    rw [checkResponse, hp]; rfl
  have hproto : copyPassThruProto permissions size filename src
      ('\x02' :: (m ++ '\n' :: tail))
      = (headerLine permissions size filename, some (String.mk m)) := by
    simp only [copyPassThruProto, hcheck]
  refine ⟨hproto, ?_, ?_⟩
  · rw [CopyPassThru, hproto]
    cases waitErrFirst <;> cases waitErr <;> simp [harvestError, wait, firstErr]
  · rintro (rfl | rfl)
    · rw [CopyPassThru, hproto]
      simp [harvestError, wait, firstErr]
    · rw [CopyPassThru, hproto]
      cases waitErrFirst <;> simp [harvestError, wait, firstErr]

/-- C2 witness: concrete failure message "no space" with a clean process exit. -/
theorem upload_header_failure_aborts_body_witness :
    copyPassThruProto "0644" 5 "f" (String.data "hello")
        ('\x02' :: (String.data "no space" ++ '\n' :: []))
      = (headerLine "0644" 5 "f", some (String.mk (String.data "no space"))) ∧
    CopyPassThru "0644" 5 "f" (String.data "hello")
        ('\x02' :: (String.data "no space" ++ '\n' :: [])) none true false "ctx"
        ≠ none ∧
    CopyPassThru "0644" 5 "f" (String.data "hello")
        ('\x02' :: (String.data "no space" ++ '\n' :: [])) none true false "ctx"
        = some (String.mk (String.data "no space")) := by
  obtain ⟨h1, h2, h3⟩ := upload_header_failure_aborts_body "0644" "f" 5
    (String.data "hello") (String.data "no space") [] none true "ctx" (by decide)
  exact ⟨h1, h2, h3 (Or.inr rfl)⟩

/-- C3: the preserve-mode response gate (used for both the timestamp line and
the header line) never aborts on a response with non-standard framing, and
aborts with the peer's message exactly when the response is a protocol-flagged
Failure (status byte 2, which under the parser's framing marker is standard
framing). The hypothesis says the marker is the one `ParseResponse` computes. -/
theorem preserve_gate (r : Response)
    (h : r.standard = decide (r.rtype ≤ 2)) :
    (r.standard = false → checkPreserveResponse r = none) ∧
    (checkPreserveResponse r = some r.GetMessage ↔ r.rtype = 2) ∧
    (r.rtype ≠ 2 → checkPreserveResponse r = none) := by
  obtain ⟨t, msg, st⟩ := r
  simp only [Response.standard, Response.rtype, decide_eq_true_eq] at h
  by_cases ht : t = 2
  · subst ht
    have hst : st = true := by rw [h]; simp
    subst hst
    refine ⟨fun hfalse => by simp at hfalse, ?_, fun hne => absurd rfl hne⟩
    simp [checkPreserveResponse, Response.IsFailure, Response.NoStandardProtocolType,
      Response.GetMessage]
  · have hb : (t == 2) = false := by simp [ht]
    refine ⟨fun _ => ?_, ?_, fun _ => ?_⟩ <;>
      simp [checkPreserveResponse, Response.IsFailure, Response.NoStandardProtocolType,
        hb, ht]

/-- C3 witness: the timestamp line `T1700000000 0 1700000001 0` is parsed as a
non-standard-framing response (first byte 84) and does not abort. -/
theorem preserve_gate_witness :
    checkPreserveResponse ⟨84, "1700000000 0 1700000001 0", false⟩ = none :=
  (preserve_gate ⟨84, "1700000000 0 1700000001 0", false⟩ (by decide)).1 rfl

/-- C4: the claim says a body-copy failure makes the progress download return a
non-nil error. In the code, `pw.Start()`'s `CopyN` error is sent only to the
progress display and never to `errCh`: with a remote stream that ends after 3
of the 5 declared payload bytes (so the body copy fails) and a cleanly exiting
remote process, the entry point returns `none` — no error. -/
theorem progress_copy_error_dropped :
    CopyFromRemoteProgressPassThru (String.data "C0644 5 test.txt\nhel") none true
        false "context cancelled" = none ∧
    CopyN (String.data "hel") 5 = .error copyShortErrMsg :=
  ⟨by decide, rfl⟩

/-- C5 counterexample: with declared size 5 but a 3-byte source, the upload
writes the 3 source bytes (not 5), follows them with the terminator, and
reports no error — refuting both "exactly n payload bytes" and "a short source
is an error". -/
theorem upload_exact_size_cex :
    copyPassThruProto "0644" 5 "f" (String.data "abc") (String.data "\x00\x00")
      = (headerLine "0644" 5 "f" ++ String.data "abc" ++ ['\x00'], none) ∧
    (String.data "abc").length ≠ 5 :=
  ⟨copyPassThruProto_ok "0644" "f" 5 (String.data "abc") [], by decide⟩

/-- C5 amended: the upload body phase copies the source reader to EOF — all of
the source's bytes, however many, are written between the header and the
terminator; the declared size appears only in the header line and a source
shorter or longer than it is not detected by the copy. -/
theorem upload_copies_source_to_eof (permissions filename : String) (size : Int)
    (src tail : List Char) :
    copyPassThruProto permissions size filename src ('\x00' :: '\x00' :: tail)
      = (headerLine permissions size filename ++ src ++ ['\x00'], none) :=
  copyPassThruProto_ok permissions filename size src tail

/-- C6: whenever the combined context/timeout cancellation wins the `select`
in `wait`, every transfer entry point returns the cancellation's error, and —
since the result is the same for every protocol stream, schedule and process
outcome, including ones standing for still-unfinished goroutines — it does so
without waiting on the concurrent units. -/
theorem cancellation_first_returns_ctx_error (permissions filename : String)
    (size : Int) (src stdout : List Char) (waitErr : Option String)
    (waitErrFirst copyBeforeAck : Bool) (ctxErr : String) :
    CopyPassThru permissions size filename src stdout waitErr waitErrFirst true
        ctxErr = some ctxErr ∧
    CopyFromRemotePassThru stdout waitErr true ctxErr = some ctxErr ∧
    CopyFromRemoteProgressPassThru stdout waitErr copyBeforeAck true ctxErr
        = some ctxErr ∧
    CopyFromRemotePreserveProgressPassThru stdout waitErr copyBeforeAck true
        ctxErr = some ctxErr :=
  ⟨rfl, rfl, rfl, rfl⟩

/-- C7: for every valid permissions/size/name triple (octal permission string,
non-negative size, name without path separator or newline), encoding the
upload header line and parsing it back with the file-info parser recovers the
same mode (the octal value of the permission string), size and name. -/
theorem header_roundtrip (perms name : List Char) (size : Nat)
    (hp1 : perms ≠ []) (hp2 : ∀ c ∈ perms, isOctDigitB c = true)
    (hn1 : name ≠ []) (hn2 : '/' ∉ name) (hn3 : '\n' ∉ name) :
    parseFileInfosLine (headerLine (String.mk perms) (size : Int) (String.mk name))
      = some ⟨octValL perms, (size : Int), String.mk name, none, none⟩ := by
  have hperms : perms.filter (fun c => c != '\n') = perms :=
    List.filter_eq_self.mpr fun c hc => isOct_ne_newline (hp2 c hc)
  have hsz : (natDecChars size).filter (fun c => c != '\n') = natDecChars size :=
    List.filter_eq_self.mpr fun c hc => isDec_ne_newline (natDecChars_digits size c hc)
  have hname : name.filter (fun c => c != '\n') = name :=
    List.filter_eq_self.mpr fun c hc => by
      simp only [bne_iff_ne]
      rintro rfl
      exact hn3 hc
  have hfil : (headerLine (String.mk perms) (size : Int) (String.mk name)).filter
      (fun c => c != '\n')
      = 'C' :: (perms ++ ' ' :: (natDecChars size ++ ' ' :: name)) := by
    rw [headerLine, intDecChars_natCast]
    show (('C' :: perms ++ ' ' :: natDecChars size ++ ' ' :: name ++ ['\n']).filter
      (fun c => c != '\n')) = _
    simp only [List.cons_append, List.append_assoc, List.filter_cons,
      List.filter_append, hperms, hsz, hname,
      show (('C' : Char) != '\n') = true from rfl,
      show (((' ') : Char) != '\n') = true from rfl,
      show (('\n' : Char) != '\n') = false from rfl,
      if_true, if_false, List.filter_nil]
    simp
  have ht1 : (perms ++ ' ' :: (natDecChars size ++ ' ' :: name)).takeWhile isOctDigitB
      = perms := takeWhile_append_stop _ hp2 (by decide)
  have hd1 : (perms ++ ' ' :: (natDecChars size ++ ' ' :: name)).dropWhile isOctDigitB
      = ' ' :: (natDecChars size ++ ' ' :: name) :=
    dropWhile_append_stop _ hp2 (by decide)
  have ht2 : (natDecChars size ++ ' ' :: name).takeWhile isDecDigitB
      = natDecChars size :=
    takeWhile_append_stop _ (natDecChars_digits size) (by decide)
  have hd2 : (natDecChars size ++ ' ' :: name).dropWhile isDecDigitB = ' ' :: name :=
    dropWhile_append_stop _ (natDecChars_digits size) (by decide)
  rw [parseFileInfosLine, hfil]
  simp only [parseFileInfosL, ht1, hd1, ht2, hd2, if_neg hp1,
    if_neg (natDecChars_ne_nil size), if_neg hn1, if_neg hn2, decValL_natDecChars]

/-- C7 witness: the header for permissions "0644", size 5, name "test.txt"
parses back to mode 420 = 0644 octal, size 5, name "test.txt". -/
theorem header_roundtrip_witness :
    parseFileInfosLine (headerLine (String.mk (String.data "0644")) ((5 : Nat) : Int)
        (String.mk (String.data "test.txt")))
      = some ⟨octValL (String.data "0644"), ((5 : Nat) : Int),
          String.mk (String.data "test.txt"), none, none⟩ :=
  header_roundtrip (String.data "0644") (String.data "test.txt") 5 (by decide)
    (by decide) (by decide) (by decide) (by decide)

/-- C8: a preserve-mode download receiving `T1700000000 0 1700000001 0` then
`C0644 5 test.txt` and a 5-byte payload merges the timestamps into the file
info before the body phase: the file info in effect for the body copy has
mtime 1700000000, atime 1700000001, size 5, permissions 420 (octal 0644) and
name "test.txt", and the transfer completes without error. -/
theorem preserve_merges_timestamps :
    copyFromRemotePreserveProto
        (String.data "T1700000000 0 1700000001 0\nC0644 5 test.txt\nhello") none true
      = (none, [Ev.ack, Ev.ack, Ev.ack, Ev.sink (String.data "hello"), Ev.ack],
         some ⟨420, 5, "test.txt", some 1700000000, some 1700000001⟩) := by
  decide

/-- C9: across any sequence of Write calls the running downloaded count never
decreases; when the total is positive and a callback is installed the callback
is invoked once per chunk with exactly (cumulative bytes)/total; when the total
is zero or negative the callback is never invoked. -/
theorem progress_writer_invariants (t : Int) (hc : Bool) (cs : List (List Char)) :
    (∀ ds : List (List Char),
      (pwRun (pwInit t hc) cs).downloaded
        ≤ (pwRun (pwInit t hc) (cs ++ ds)).downloaded) ∧
    (0 < t → hc = true →
      (pwRun (pwInit t hc) cs).calls
        = (cumCountsFrom 0 cs).map (fun d => (d : ℚ) / (t : ℚ))) ∧
    (t ≤ 0 → (pwRun (pwInit t hc) cs).calls = []) := by
  refine ⟨?_, ?_, ?_⟩
  · intro ds
    rw [pwRun_append]
    exact pwRun_le ds _
  · intro ht hcb
    subst hcb
    simpa [pwInit] using pwRun_calls_pos cs (pwInit t true) ht rfl
  · intro ht
    exact pwRun_calls_nonpos cs _ ht

/-- C9 witness: total 5 with chunks of 3 and 2 bytes records the fractions
3/5 and 5/5. -/
theorem progress_writer_invariants_witness :
    (pwRun (pwInit 5 true) [String.data "abc", String.data "de"]).calls
      = (cumCountsFrom 0 [String.data "abc", String.data "de"]).map
          (fun d => (d : ℚ) / ((5 : Int) : ℚ)) :=
  (progress_writer_invariants 5 true [String.data "abc", String.data "de"]).2.1
    (by decide) rfl

/-- C10: CopyFilePassThru buffers the whole source before any protocol byte:
a buffering failure yields an error and an empty protocol trace (no session,
no bytes sent), and on success the upload runs with the declared size equal to
the exact number of buffered bytes — the header announces `contents.length`
and the payload is exactly `contents`. -/
theorem copyfile_buffers_before_upload (permissions filename : String)
    (contents : List Char) (e ctxErr ctxErr2 : String) (stdout tail : List Char)
    (waitErr : Option String) (waitErrFirst ctxFiredFirst : Bool) :
    CopyFilePassThru permissions filename contents (some e) stdout waitErr
        waitErrFirst ctxFiredFirst ctxErr
      = (some ("failed to read all data from reader: " ++ e), []) ∧
    CopyFilePassThru permissions filename contents none ('\x00' :: '\x00' :: tail)
        none waitErrFirst false ctxErr2
      = (none, headerLine permissions (contents.length : Int) filename
          ++ contents ++ ['\x00']) := by
  refine ⟨rfl, ?_⟩
  simp only [CopyFilePassThru, copyPassThruProto_ok]
  cases waitErrFirst <;> rfl

end Scp
